import Mathlib

/-!
Verification development for the `adobe-round1a` PDF heading extractor
(`app/extractor.py`, `run.py`).

Modelling conventions (shallow embedding):
* Python floats (font sizes, vertical positions) are modelled as `ℚ`;
  `round(x, 1)` is modelled as `round1` (round to one decimal place,
  ties modelled as round-half-up).
* Python strings are modelled as `List Char`; Python's Unicode character
  classes (`isdigit`, `isupper`, `islower`, whitespace) are modelled with
  Lean's `Char` predicates.
* The Python dicts `self.size_thresholds` and `lines_by_font` are modelled
  as association lists in insertion order, matching dict iteration order.
* An exception raised while opening/reading the PDF is modelled by an
  `Except String Document` source value.
-/

namespace Extractor

/-- A positioned character record supplied by the PDF character stream
(pdfplumber's `page.chars`): `{text, size, fontname, top}`. -/
structure PChar where
  text : String
  size : ℚ
  fontname : String
  top : ℚ
deriving DecidableEq

/-- One page of the document: its character stream, in stream order. -/
abbrev Page := List PChar

/-- A document: its ordered sequence of pages. -/
abbrev Document := List Page

/-- Python `round(x, 1)`: round to one decimal place. -/
def round1 (q : ℚ) : ℚ := ((round (q * 10) : ℤ) : ℚ) / 10

/-- The font-size histogram `self.size_thresholds`: an association list
from rounded font size to occurrence count, in insertion order. -/
abbrev Hist := List (ℚ × ℕ)

/-- Membership test for a key of the histogram (`size in self.size_thresholds`). -/
def histMem (h : Hist) (k : ℚ) : Bool := h.any (fun p => decide (p.1 = k))

/-- Record one occurrence of size `k`:
`if k not in d: d[k] = 1 else: d[k] += 1`. -/
def bump (h : Hist) (k : ℚ) : Hist :=
  if histMem h k then h.map (fun p => if p.1 = k then (p.1, p.2 + 1) else p)
  else h ++ [(k, 1)]

/-- The list of keys of the histogram (`self.size_thresholds.keys()`). -/
def histKeys (h : Hist) : List ℚ := h.map Prod.fst

/-- Python `str.strip()` on a character list. -/
def stripL (cs : List Char) : List Char :=
  ((cs.dropWhile Char.isWhitespace).reverse.dropWhile Char.isWhitespace).reverse

/-- Python `s.startswith(k)` on character lists. -/
def startsWithL : List Char → List Char → Bool
  | _, [] => true
  | [], _ :: _ => false
  | c :: cs, k :: ks => c == k && startsWithL cs ks

/-- Python `needle in haystack` substring containment on character lists. -/
def containsSub : List Char → List Char → Bool
  | [], nee => nee.isEmpty
  | hay@(_ :: rest), nee => startsWithL hay nee || containsSub rest nee

/-- Python `s.lower()` on a character list. -/
def toLowerL (cs : List Char) : List Char := cs.map Char.toLower

/-- Python `s.isdigit()`: non-empty and all characters are digits. -/
def pyIsDigit (cs : List Char) : Bool := !cs.isEmpty && cs.all Char.isDigit

/-- A character is cased (has upper or lower case). -/
def isCased (c : Char) : Bool := c.isUpper || c.isLower

/-- Python `s.isupper()`: at least one cased character, and no cased
character is lowercase. -/
def pyIsUpper (cs : List Char) : Bool :=
  cs.any isCased && cs.all (fun c => !c.isLower)

/-- Worker for Python `s.istitle()`: `prevCased` tracks whether the previous
character was cased, `found` whether any cased character was seen. -/
def istitleAux : List Char → Bool → Bool → Bool
  | [], _, found => found
  | c :: cs, prevCased, found =>
    if c.isUpper then
      if prevCased then false else istitleAux cs true true
    else if c.isLower then
      if prevCased then istitleAux cs true true else false
    else istitleAux cs false found

/-- Python `s.istitle()`. -/
def pyIsTitle (cs : List Char) : Bool := istitleAux cs false false

/-- Python `s.split()`: split on whitespace runs, discarding empty pieces. -/
def wordsL (cs : List Char) : List (List Char) :=
  (cs.foldr (fun c acc =>
    if Char.isWhitespace c then [] :: acc
    else match acc with
      | [] => [[c]]
      | w :: ws => (c :: w) :: ws) []).filter (fun w => !w.isEmpty)

/-- Python `s.endswith('.')`. -/
def endsWithDot (cs : List Char) : Bool := cs.getLast? == some '.'

/-- The multilingual heading keyword table `self.heading_patterns`
(values in dict insertion order: en, es, fr, de, zh, ja, ko). -/
def headingPatterns : List (List String) :=
  [ ["Chapter", "Section", "Part", "Overview", "Summary", "Conclusion", "Appendix"],
    ["Capítulo", "Sección", "Parte", "Resumen", "Conclusión", "Apéndice"],
    ["Chapitre", "Section", "Partie", "Aperçu", "Résumé", "Conclusion", "Annexe"],
    ["Kapitel", "Abschnitt", "Teil", "Überblick", "Zusammenfassung", "Fazit", "Anhang"],
    ["章", "节", "部分", "概述", "摘要", "结论", "附录"],
    ["章", "節", "部", "概要", "要約", "結論", "付録"],
    ["장", "절", "부분", "개요", "요약", "결론", "부록"] ]

/-- The keyword rule of `_is_heading`:
`any(any(line.startswith(k) for k in patterns) for patterns in self.heading_patterns.values())`. -/
def startsWithAnyKeyword (line : List Char) : Bool :=
  headingPatterns.any (fun pats => pats.any (fun k => startsWithL line k.data))

/-- The numbered-section rule of `_is_heading`:
`line[:6].strip().replace('.', '').isdigit() and '.' in line[:6]`. -/
def numberedRule (line : List Char) : Bool :=
  pyIsDigit ((stripL (line.take 6)).filter (fun c => !(c == '.'))) &&
    (line.take 6).contains '.'

/-- Average of the distinct observed sizes, `_get_average_font_size`:
12.0 if the histogram is empty, else `sum(keys)/len(keys)`. -/
def getAverageFontSize (h : Hist) : ℚ :=
  if h = [] then 12 else (histKeys h).sum / (histKeys h).length

/-- Descending insertion of one element, used to model Python's
`sorted(keys, reverse=True)`. -/
def insertDesc (x : ℚ) : List ℚ → List ℚ
  | [] => [x]
  | y :: ys => if x ≥ y then x :: y :: ys else y :: insertDesc x ys

/-- Model of Python `sorted(l, reverse=True)` on rationals. -/
def sortDesc : List ℚ → List ℚ
  | [] => []
  | x :: xs => insertDesc x (sortDesc xs)

/-- Heading level from the font size distribution, `_determine_level`:
"H3" on an empty histogram; otherwise "H1"/"H2"/"H3" by comparing the size
with `largest * 0.9` and `largest * 0.8`, where `largest = sorted(keys, reverse=True)[0]`. -/
def determineLevel (h : Hist) (size : ℚ) : String :=
  if h = [] then "H3"
  else
    match sortDesc (histKeys h) with
    | [] => "H3"
    | largest :: _ =>
      if size ≥ largest * 0.9 then "H1"
      else if size ≥ largest * 0.8 then "H2"
      else "H3"

/-- Title font-size threshold, `_get_title_threshold`:
18.0 on an empty histogram, else `sorted(keys, reverse=True)[0] * 0.95`. -/
def getTitleThreshold (h : Hist) : ℚ :=
  if h = [] then 18
  else
    match sortDesc (histKeys h) with
    | [] => 18
    | largest :: _ => largest * 0.95

/-- The heading classifier `_is_heading`.  It returns the decision together
with the updated histogram (the method mutates `self.size_thresholds`).
The rules appear in source order. -/
def isHeadingCore (h : Hist) (line : List Char) (fontSize : ℚ) (fontName : String) :
    Bool × Hist :=
  if line = [] ∨ line.length > 100 then (false, h)
  else
    let h2 := if fontSize > 0 then bump h fontSize else h
    if startsWithAnyKeyword line then (true, h2)
    else if numberedRule line then (true, h2)
    else if pyIsUpper line ∧ (wordsL line).length ≤ 6 then (true, h2)
    else if pyIsTitle line ∧ (wordsL line).length ≤ 8 then (true, h2)
    else if (wordsL line).length ≤ 5 ∧ fontSize ≥ getAverageFontSize h2 then (true, h2)
    else if containsSub (toLowerL fontName.data) "bold".data ∧ (wordsL line).length ≤ 8
      then (true, h2)
    else if line.contains ':' ∧ ¬ endsWithDot line = true then (false, h2)
    else (false, h2)

/-- The pre-pass observation of one character
(`if char["size"] > 0: bump round(size, 1)`). -/
def observePre (h : Hist) (c : PChar) : Hist :=
  if c.size > 0 then bump h (round1 c.size) else h

/-- The pre-pass over one page's characters. -/
def prePassPage (h : Hist) (p : Page) : Hist := p.foldl observePre h

/-- The first pass of `extract_headings`: gather font statistics over the
whole document. -/
def prePass (doc : Document) : Hist := doc.foldl prePassPage []

/-- One assembled line (`lines_by_font[top_key]`):
`{text, size, font, page}`. -/
structure LineEntry where
  text : List Char
  size : ℚ
  font : String
  page : ℕ
deriving DecidableEq

/-- Add one character to the page's line map keyed by `round(char["top"], 1)`:
a new position bucket records the rounded size, font name and 1-based page
index of its first character; every character's stripped text is appended. -/
def addChar (pageNum : ℕ) (acc : List (ℚ × LineEntry)) (c : PChar) :
    List (ℚ × LineEntry) :=
  let topKey := round1 c.top
  let t := stripL c.text.data
  if acc.any (fun p => decide (p.1 = topKey)) then
    acc.map (fun p => if p.1 = topKey then (p.1, { p.2 with text := p.2.text ++ t }) else p)
  else
    acc ++ [(topKey, { text := t, size := round1 c.size, font := c.fontname,
                       page := pageNum + 1 })]

/-- The line assembler for one page (`lines_by_font` in insertion order). -/
def assembleLines (pageNum : ℕ) (p : Page) : List (ℚ × LineEntry) :=
  p.foldl (addChar pageNum) []

/-- The assembled lines of one page in iteration order
(`lines_by_font.values()`). -/
def pageEntries (pageNum : ℕ) (p : Page) : List LineEntry :=
  (assembleLines pageNum p).map Prod.snd

/-- One heading of the outline: `{"text": ..., "page": ..., "level": ...}`. -/
structure Heading where
  text : List Char
  page : ℕ
  level : String
deriving DecidableEq

/-- The extraction state threaded through the second pass:
the histogram, the current `title`, and `self.headings`. -/
abbrev ExtState := Hist × List Char × List Heading

/-- Processing of one assembled line in the second pass of
`extract_headings`: re-strip, skip empty or overlong lines, classify
(which updates the histogram), and on acceptance compute the level,
possibly set the title, and append the heading. -/
def processEntry (st : ExtState) (e : LineEntry) : ExtState :=
  let h := st.1
  let title := st.2.1
  let hs := st.2.2
  let line := stripL e.text
  if line = [] ∨ line.length > 100 then (h, title, hs)
  else
    let r := isHeadingCore h line e.size e.font
    if r.1 then
      let level := determineLevel r.2 e.size
      let title' :=
        if title = "Untitled".data ∧ e.size ≥ getTitleThreshold r.2 then line else title
      (r.2, title', hs ++ [⟨line, e.page, level⟩])
    else (r.2, title, hs)

/-- The assembled lines of all pages, in page order
(`for page_num in range(len(pdf.pages))`). -/
def docEntriesAux : ℕ → Document → List LineEntry
  | _, [] => []
  | i, p :: ps => pageEntries i p ++ docEntriesAux (i + 1) ps

/-- All assembled lines of the document in processing order. -/
def docEntries (doc : Document) : List LineEntry := docEntriesAux 0 doc

/-- The second pass of `extract_headings`, starting from the pre-pass
histogram, title "Untitled" and no headings. -/
def secondPass (doc : Document) (h0 : Hist) : ExtState :=
  (docEntries doc).foldl processEntry (h0, "Untitled".data, [])

/-- The result of `extract_headings` on a successfully read document:
`(title, self.headings)`. -/
def extractHeadings (doc : Document) : List Char × List Heading :=
  let st := secondPass doc (prePass doc)
  (st.2.1, st.2.2)

/-- The final histogram produced by one extraction run. -/
def extractHist (doc : Document) : Hist := (secondPass doc (prePass doc)).1

/-- `extract_headings` at the exception boundary: an `Except.error`
models any exception raised while opening or reading the PDF; the
`except` handler returns `("Untitled", [])`. -/
def extractHeadingsE (src : Except String Document) : List Char × List Heading :=
  match src with
  | .error _ => ("Untitled".data, [])
  | .ok doc => extractHeadings doc

/-- The mutable state of a `HeadingExtractor` instance:
`self.headings` and `self.size_thresholds`. -/
structure ExtractorState where
  headings : List Heading
  size_thresholds : Hist
deriving DecidableEq

/-- The method `extract_headings` on an extractor instance: it first resets
`self.headings` and `self.size_thresholds` (lines 96-97), so the incoming
instance state is discarded before any processing. -/
def extractHeadingsSt (_st : ExtractorState) (src : Except String Document) :
    ExtractorState × (List Char × List Heading) :=
  match src with
  | .error _ => (⟨[], []⟩, ("Untitled".data, []))
  | .ok doc =>
    let r := secondPass doc (prePass doc)
    (⟨r.2.2, r.1⟩, (r.2.1, r.2.2))

/-! Spec-side definitions, written from the specification's words, for
comparison with the definitions above (which follow the source). -/

/-- The numbered-prefix acceptance condition exactly as claim C2 states it:
the first 6 characters with periods removed form a non-empty digit string,
and the first 6 characters contain a period.  (The source additionally
strips surrounding whitespace from the 6-character window first.) -/
def numberedRuleClaim (line : List Char) : Bool :=
  pyIsDigit ((line.take 6).filter (fun c => !(c == '.'))) && (line.take 6).contains '.'

/-- The numbered-prefix condition with the whitespace strip made explicit,
as a proposition (the amended form of claim C2). -/
def numberedRuleAmended (line : List Char) : Prop :=
  ((stripL (line.take 6)).filter (fun c => !(c == '.')) ≠ [] ∧
    ∀ c ∈ (stripL (line.take 6)).filter (fun c => !(c == '.')), c.isDigit = true) ∧
  '.' ∈ line.take 6

/-- The maximum of a list of rationals (the spec's "largest observed size"). -/
def maxList : List ℚ → ℚ
  | [] => 0
  | [x] => x
  | x :: y :: ys => max x (maxList (y :: ys))

/-- The level-assignment rule exactly as the spec states it: "H1" if
`size ≥ 0.9 × largest`, "H2" if `size ≥ 0.8 × largest`, else "H3";
always "H3" on an empty histogram. -/
def determineLevelSpec (h : Hist) (size : ℚ) : String :=
  if histKeys h = [] then "H3"
  else if size ≥ 0.9 * maxList (histKeys h) then "H1"
  else if size ≥ 0.8 * maxList (histKeys h) then "H2"
  else "H3"

/-- The pre-pass observation applied to a bare list of sizes (the Font
Statistics Collector's `observe` on each element in turn). -/
def observeAll (sizes : List ℚ) : Hist :=
  sizes.foldl (fun h s => if s > 0 then bump h (round1 s) else h) []

/-- The variant of `_is_heading` with the colon-rejection rule (source
lines 69-71) removed, for claim C10: everything else is unchanged. -/
def isHeadingNoColon (h : Hist) (line : List Char) (fontSize : ℚ) (fontName : String) :
    Bool × Hist :=
  if line = [] ∨ line.length > 100 then (false, h)
  else
    let h2 := if fontSize > 0 then bump h fontSize else h
    if startsWithAnyKeyword line then (true, h2)
    else if numberedRule line then (true, h2)
    else if pyIsUpper line ∧ (wordsL line).length ≤ 6 then (true, h2)
    else if pyIsTitle line ∧ (wordsL line).length ≤ 8 then (true, h2)
    else if (wordsL line).length ≤ 5 ∧ fontSize ≥ getAverageFontSize h2 then (true, h2)
    else if containsSub (toLowerL fontName.data) "bold".data ∧ (wordsL line).length ≤ 8
      then (true, h2)
    else (false, h2)

/-- The second-pass step as claim C1 describes title detection: the title
is an `Option` that is set by the first heading-classified line whose size
reaches the threshold and is never overwritten afterwards.  Classification,
histogram updates and the outline are exactly as in `processEntry`. -/
def processEntryClaimTitle (st : Hist × Option (List Char) × List Heading)
    (e : LineEntry) : Hist × Option (List Char) × List Heading :=
  let h := st.1
  let t := st.2.1
  let hs := st.2.2
  let line := stripL e.text
  if line = [] ∨ line.length > 100 then (h, t, hs)
  else
    let r := isHeadingCore h line e.size e.font
    if r.1 then
      let t' := if t = none ∧ e.size ≥ getTitleThreshold r.2 then some line else t
      (r.2, t', hs ++ [⟨line, e.page, determineLevel r.2 e.size⟩])
    else (r.2, t, hs)

/-- The document title exactly as claim C1 states it: the first
heading-classified line whose size is ≥ the title threshold; "Untitled"
if no line ever qualifies. -/
def titleClaimSpec (doc : Document) : List Char :=
  (((docEntries doc).foldl processEntryClaimTitle (prePass doc, none, [])).2.1).getD
    "Untitled".data

/-- The amended title-detection step: as `processEntryClaimTitle`, but a
qualifying line whose text is literally "Untitled" does not set the title
(because the source guards on `title == "Untitled"`, not on a flag). -/
def processEntryAmended (st : Hist × Option (List Char) × List Heading)
    (e : LineEntry) : Hist × Option (List Char) × List Heading :=
  let h := st.1
  let t := st.2.1
  let hs := st.2.2
  let line := stripL e.text
  if line = [] ∨ line.length > 100 then (h, t, hs)
  else
    let r := isHeadingCore h line e.size e.font
    if r.1 then
      let t' := if t = none ∧ e.size ≥ getTitleThreshold r.2 ∧ line ≠ "Untitled".data
        then some line else t
      (r.2, t', hs ++ [⟨line, e.page, determineLevel r.2 e.size⟩])
    else (r.2, t, hs)

/-- The amended document title of claim C1: the first heading-classified
qualifying line whose text is not "Untitled"; "Untitled" otherwise. -/
def titleAmended (doc : Document) : List Char :=
  (((docEntries doc).foldl processEntryAmended (prePass doc, none, [])).2.1).getD
    "Untitled".data

/-- The simulation relation between the source's title variable and the
set-once optional title of the amended claim C1. -/
def TitleRel (t : List Char) (o : Option (List Char)) : Prop :=
  (o = none ∧ t = "Untitled".data) ∨
  (∃ x, o = some x ∧ t = x ∧ x ≠ "Untitled".data)

/-- A rational is an integer multiple of one tenth (one decimal place). -/
def OneDecimal (k : ℚ) : Prop := ∃ m : ℤ, k = (m : ℚ) / 10

/-- The amended histogram-key invariant of claim C6: every key is
non-negative and has at most one decimal place. -/
def KeyOk (k : ℚ) : Prop := 0 ≤ k ∧ OneDecimal k

/-- All keys of a histogram satisfy `KeyOk`. -/
def HistOk (h : Hist) : Prop := ∀ k ∈ histKeys h, KeyOk k

/-! Helper lemmas. -/

theorem histKeys_nil_iff (h : Hist) : histKeys h = [] ↔ h = [] := by
  simp [histKeys]

theorem sortDesc_head (l : List ℚ) (hl : l ≠ []) :
    ∃ r, sortDesc l = maxList l :: r := by
  induction l with
  | nil => exact absurd rfl hl
  | cons x xs ih =>
    cases xs with
    | nil => exact ⟨[], rfl⟩
    | cons y ys =>
      obtain ⟨r, hr⟩ := ih (by simp)
      show ∃ r', insertDesc x (sortDesc (y :: ys)) = maxList (x :: y :: ys) :: r'
      rw [hr]
      by_cases hxy : maxList (y :: ys) ≤ x
      · exact ⟨maxList (y :: ys) :: r, by
          simp [insertDesc, if_pos hxy, maxList, max_eq_left hxy]⟩
      · push_neg at hxy
        exact ⟨insertDesc x r, by
          simp [insertDesc, if_neg (not_le.mpr hxy), maxList, max_eq_right hxy.le]⟩

theorem histKeys_map_counts (h : Hist) (f : ℕ → ℕ) :
    histKeys (h.map (fun p => (p.1, f p.2))) = histKeys h := by
  simp [histKeys, List.map_map]

theorem histKeys_bump_of_mem (h : Hist) (k : ℚ) (hm : histMem h k = true) :
    histKeys (bump h k) = histKeys h := by
  unfold bump
  rw [if_pos hm]
  unfold histKeys
  rw [List.map_map]
  apply List.map_congr_left
  intro p _
  by_cases hp : p.1 = k <;> simp [hp]

theorem getAverageFontSize_congr_keys (h1 h2 : Hist)
    (he : histKeys h1 = histKeys h2) :
    getAverageFontSize h1 = getAverageFontSize h2 := by
  unfold getAverageFontSize
  have hiff : h1 = [] ↔ h2 = [] := by
    rw [← histKeys_nil_iff, ← histKeys_nil_iff, he]
  by_cases h : h1 = []
  · rw [if_pos h, if_pos (hiff.mp h)]
  · rw [if_neg h, if_neg (fun hh => h (hiff.mpr hh)), he]

theorem prePass_all_nil {doc : Document} (hd : ∀ p ∈ doc, p = []) :
    ∀ h : Hist, doc.foldl prePassPage h = h := by
  induction doc with
  | nil => intro h; rfl
  | cons p ps ih =>
    intro h
    have hp : p = [] := hd p (by simp)
    rw [List.foldl_cons, hp]
    exact ih (fun q hq => hd q (List.mem_cons_of_mem p hq)) h

theorem docEntriesAux_all_nil {doc : Document} (hd : ∀ p ∈ doc, p = []) :
    ∀ i, docEntriesAux i doc = [] := by
  induction doc with
  | nil => intro i; rfl
  | cons p ps ih =>
    intro i
    have hp : p = [] := hd p (by simp)
    rw [docEntriesAux, hp, ih (fun q hq => hd q (List.mem_cons_of_mem p hq)) (i + 1)]
    rfl

/-! Claim theorems. -/

/-- C3: for every document handle on which opening or reading raises an
exception, `extract_headings` catches it at the top level and returns
exactly `("Untitled", [])`, never a partially accumulated outline. -/
theorem c3_exception_yields_empty_result :
    ∀ msg : String, extractHeadingsE (Except.error msg) = ("Untitled".data, []) :=
  fun _ => rfl

/-- C8: no cross-document state persists: `extract_headings` resets
`self.headings` and `self.size_thresholds` on entry, so the returned
`(title, outline)` of a document is the same whether the extractor
previously processed other documents or is fresh. -/
theorem c8_no_cross_document_interference :
    (∀ (st : ExtractorState) (srcA srcB : Except String Document),
      (extractHeadingsSt ((extractHeadingsSt st srcA).1) srcB).2 =
        (extractHeadingsSt ⟨[], []⟩ srcB).2) ∧
    (∀ (st st' : ExtractorState) (src : Except String Document),
      (extractHeadingsSt st src).2 = (extractHeadingsSt st' src).2) :=
  ⟨fun _ _ _ => rfl, fun _ _ _ => rfl⟩

/-- C10: the colon-rejection rule (source lines 69-71) is behaviorally
inert: `_is_heading` is extensionally equal to the variant with the colon
check removed, since every input reaching that check is rejected anyway. -/
theorem c10_colon_rule_inert :
    ∀ (h : Hist) (line : List Char) (fs : ℚ) (fn : String),
      isHeadingCore h line fs fn = isHeadingNoColon h line fs fn := by
  intro h line fs fn
  simp only [isHeadingCore, isHeadingNoColon, ite_self]

/-- C2 as stated is false: the source strips whitespace from the
6-character window before removing periods, so the line "1.234 x"
(non-empty, 7 characters) is accepted by the numbered-prefix rule even
though its first 6 characters "1.234 " with periods removed, "1234 ",
are not a digit-only string. -/
theorem c2_counterexample :
    numberedRule "1.234 x".data = true ∧
    numberedRuleClaim "1.234 x".data = false ∧
    startsWithAnyKeyword "1.234 x".data = false ∧
    (isHeadingCore [] "1.234 x".data 12 "F").1 = true ∧
    "1.234 x".data ≠ [] ∧ "1.234 x".data.length ≤ 100 := by
  refine ⟨by decide, by decide, by decide, by with_unfolding_all rfl, by decide, by decide⟩

/-- C2 (amended): the numbered-prefix rule accepts exactly when the first
6 characters, after stripping surrounding whitespace and removing periods,
form a non-empty digit string, and the first 6 characters contain at least
one period; in particular the line "1.1" is accepted. -/
theorem c2_numbered_rule_amended :
    (∀ line : List Char, numberedRule line = true ↔ numberedRuleAmended line) ∧
    numberedRule "1.1".data = true ∧
    (isHeadingCore [] "1.1".data 12 "F").1 = true := by
  refine ⟨?_, by decide, by with_unfolding_all rfl⟩
  intro line
  unfold numberedRule numberedRuleAmended pyIsDigit
  simp [List.isEmpty_iff, List.all_eq_true]
  intro hdot x hx hxne
  constructor
  · intro hall c hc hcne
    rcases hall c hc with h | h
    · exact absurd h hcne
    · exact h
  · intro hall c hc
    by_cases hce : c = '.'
    · exact Or.inl hce
    · exact Or.inr (hall c hc hce)

/-- C7: every non-empty line of at most 100 characters that starts with a
keyword from the configured multilingual lists is accepted by
`_is_heading` (the keyword rule fires before the colon-rejection rule). -/
theorem c7_keyword_prefix_accepts (h : Hist) (line : List Char) (fs : ℚ) (fn : String)
    (h1 : line ≠ []) (h2 : line.length ≤ 100)
    (h3 : startsWithAnyKeyword line = true) :
    (isHeadingCore h line fs fn).1 = true := by
  have hg : ¬ (line = [] ∨ line.length > 100) := by
    rintro (rfl | hlen)
    · exact h1 rfl
    · omega
  simp only [isHeadingCore, if_neg hg, h3, if_true]

/-- Witness for C7 at the line "Chapter 1: Introduction", which contains a
colon and does not end with a period. -/
theorem c7_witness :
    (isHeadingCore [] "Chapter 1: Introduction".data 12 "Helvetica").1 = true ∧
    "Chapter 1: Introduction".data.contains ':' = true ∧
    endsWithDot "Chapter 1: Introduction".data = false :=
  ⟨c7_keyword_prefix_accepts [] _ 12 "Helvetica" (by decide) (by decide) (by decide),
   by decide, by decide⟩

/-- C4: `_determine_level` returns "H1" when the size is at least 0.9 of
the largest observed size, "H2" when at least 0.8 of it, else "H3", and
always "H3" on an empty histogram; with histogram {10.0: 5, 20.0: 1} the
levels of 19.0, 16.5 and 10.0 are "H1", "H2" and "H3". -/
theorem c4_determine_level :
    (∀ (h : Hist) (size : ℚ), determineLevel h size = determineLevelSpec h size) ∧
    determineLevel [(10, 5), (20, 1)] 19 = "H1" ∧
    determineLevel [(10, 5), (20, 1)] 16.5 = "H2" ∧
    determineLevel [(10, 5), (20, 1)] 10 = "H3" ∧
    (∀ size : ℚ, determineLevel [] size = "H3") := by
  refine ⟨?_, by with_unfolding_all rfl, by with_unfolding_all rfl,
    by with_unfolding_all rfl, fun _ => rfl⟩
  intro h size
  unfold determineLevel determineLevelSpec
  by_cases hh : h = []
  · simp [hh, histKeys]
  · have hk : histKeys h ≠ [] := by simpa [histKeys] using hh
    obtain ⟨r, hr⟩ := sortDesc_head (histKeys h) hk
    rw [if_neg hh, if_neg hk, hr]
    show (if size ≥ maxList (histKeys h) * 0.9 then "H1"
      else if size ≥ maxList (histKeys h) * 0.8 then "H2" else "H3") = _
    rw [mul_comm (maxList (histKeys h)) (0.9 : ℚ),
      mul_comm (maxList (histKeys h)) (0.8 : ℚ)]

/-- C5: `_get_average_font_size` is the arithmetic mean of the distinct
observed sizes, unweighted by occurrence counts (changing counts, or
re-observing an already observed size, leaves it unchanged; ten
observations of 10pt and one of 30pt average to 20), and it is 12.0 on an
empty histogram. -/
theorem c5_average_of_distinct_sizes :
    getAverageFontSize [] = 12 ∧
    (∀ h : Hist, h ≠ [] →
      getAverageFontSize h = (histKeys h).sum / (histKeys h).length) ∧
    (∀ (h : Hist) (f : ℕ → ℕ),
      getAverageFontSize (h.map (fun p => (p.1, f p.2))) = getAverageFontSize h) ∧
    (∀ (h : Hist) (s : ℚ), histMem h s = true →
      getAverageFontSize (bump h s) = getAverageFontSize h) ∧
    getAverageFontSize (observeAll (List.replicate 10 10 ++ [30])) = 20 := by
  refine ⟨rfl, ?_, ?_, ?_, by with_unfolding_all rfl⟩
  · intro h hne
    unfold getAverageFontSize
    rw [if_neg hne]
  · intro h f
    exact getAverageFontSize_congr_keys _ _ (histKeys_map_counts h f)
  · intro h s hm
    exact getAverageFontSize_congr_keys _ _ (histKeys_bump_of_mem h s hm)

/-- Witness for C5: the mean formula and the repeat-observation no-op at
concrete histograms. -/
theorem c5_witness :
    getAverageFontSize [((10 : ℚ), 5)] =
      (histKeys [((10 : ℚ), 5)]).sum / (histKeys [((10 : ℚ), 5)]).length ∧
    getAverageFontSize (bump [((10 : ℚ), 1)] 10) = getAverageFontSize [((10 : ℚ), 1)] :=
  ⟨c5_average_of_distinct_sizes.2.1 _ (by decide),
   c5_average_of_distinct_sizes.2.2.2.1 _ 10 (by with_unfolding_all decide)⟩

/-- C9: a document all of whose pages yield zero characters extracts to
exactly `("Untitled", [])`. -/
theorem c9_empty_pages (doc : Document) (hd : ∀ p ∈ doc, p = []) :
    extractHeadings doc = ("Untitled".data, []) := by
  unfold extractHeadings secondPass prePass docEntries
  rw [prePass_all_nil hd, docEntriesAux_all_nil hd 0]
  rfl

/-- Witness for C9 at a two-page document with no characters. -/
theorem c9_witness : extractHeadings [[], []] = ("Untitled".data, []) :=
  c9_empty_pages [[], []] (by decide)

/-! Machinery for claim C1: simulation between the source's
`title == "Untitled"` guard and a set-once optional title. -/

theorem processEntry_amended_step (h : Hist) (hs : List Heading) (t : List Char)
    (o : Option (List Char)) (e : LineEntry) (hr : TitleRel t o) :
    (processEntry (h, t, hs) e).1 = (processEntryAmended (h, o, hs) e).1 ∧
    (processEntry (h, t, hs) e).2.2 = (processEntryAmended (h, o, hs) e).2.2 ∧
    TitleRel (processEntry (h, t, hs) e).2.1 (processEntryAmended (h, o, hs) e).2.1 := by
  by_cases hg : stripL e.text = [] ∨ (stripL e.text).length > 100
  · simp only [processEntry, processEntryAmended, if_pos hg]
    exact ⟨by trivial, by trivial, hr⟩
  · simp only [processEntry, processEntryAmended, if_neg hg]
    by_cases hb : (isHeadingCore h (stripL e.text) e.size e.font).1 = true
    · rw [if_pos hb, if_pos hb]
      refine ⟨rfl, rfl, ?_⟩
      rcases hr with ⟨ho, ht⟩ | ⟨x, ho, htx, hxne⟩
      · subst ho; subst ht
        by_cases hq : e.size ≥
            getTitleThreshold (isHeadingCore h (stripL e.text) e.size e.font).2
        · by_cases hL : stripL e.text = "Untitled".data
          · rw [if_pos ⟨rfl, hq⟩, if_neg (by simp [hL])]
            exact Or.inl ⟨rfl, hL⟩
          · rw [if_pos ⟨rfl, hq⟩, if_pos ⟨rfl, hq, hL⟩]
            exact Or.inr ⟨stripL e.text, rfl, rfl, hL⟩
        · rw [if_neg (by simp [hq]), if_neg (by simp [hq])]
          exact Or.inl ⟨rfl, rfl⟩
      · rw [if_neg (by simp [htx, hxne]), if_neg (by simp [ho])]
        exact Or.inr ⟨x, ho, htx, hxne⟩
    · rw [if_neg hb, if_neg hb]
      exact ⟨rfl, rfl, hr⟩

theorem fold_amended_rel (es : List LineEntry) :
    ∀ (h : Hist) (hs : List Heading) (t : List Char) (o : Option (List Char)),
      TitleRel t o →
      (es.foldl processEntry (h, t, hs)).1 =
        (es.foldl processEntryAmended (h, o, hs)).1 ∧
      (es.foldl processEntry (h, t, hs)).2.2 =
        (es.foldl processEntryAmended (h, o, hs)).2.2 ∧
      TitleRel (es.foldl processEntry (h, t, hs)).2.1
        (es.foldl processEntryAmended (h, o, hs)).2.1 := by
  induction es with
  | nil => exact fun h hs t o hr => ⟨rfl, rfl, hr⟩
  | cons e es ih =>
    intro h hs t o hr
    obtain ⟨h1, h2, h3⟩ := processEntry_amended_step h hs t o e hr
    rw [List.foldl_cons, List.foldl_cons]
    have ha : processEntry (h, t, hs) e
        = ((processEntry (h, t, hs) e).1, (processEntry (h, t, hs) e).2.1,
           (processEntry (h, t, hs) e).2.2) := rfl
    have hb : processEntryAmended (h, o, hs) e
        = ((processEntry (h, t, hs) e).1, (processEntryAmended (h, o, hs) e).2.1,
           (processEntry (h, t, hs) e).2.2) := by rw [h1, h2]
    rw [ha, hb]
    exact ih _ _ _ _ h3

/-- C1 as stated is false: if the first heading-classified line whose size
reaches the title threshold has the literal text "Untitled", the source's
`title == "Untitled"` guard lets a later qualifying heading overwrite the
already-set title; the claim-side first-qualifying title of this document
is "Untitled" but the code returns "Alpha Beta". -/
theorem c1_counterexample :
    titleClaimSpec [[⟨"Untitled", 20, "F", 0⟩, ⟨"Alpha Beta", 20, "F", 10⟩]]
      = "Untitled".data ∧
    (extractHeadings [[⟨"Untitled", 20, "F", 0⟩, ⟨"Alpha Beta", 20, "F", 10⟩]]).1
      = "Alpha Beta".data ∧
    "Alpha Beta".data ≠ "Untitled".data :=
  ⟨by with_unfolding_all rfl, by with_unfolding_all rfl, by decide⟩

/-- C1 (amended): the document title is the first heading-classified line
whose size is ≥ the title threshold (0.95 × largest observed size) and
whose text is not literally "Untitled"; once set it is never overwritten,
and if no such line exists the title is "Untitled". -/
theorem c1_title_amended :
    ∀ doc : Document, (extractHeadings doc).1 = titleAmended doc := by
  intro doc
  obtain ⟨-, -, h3⟩ := fold_amended_rel (docEntries doc) (prePass doc) []
    "Untitled".data none (Or.inl ⟨rfl, rfl⟩)
  show (secondPass doc (prePass doc)).2.1 = titleAmended doc
  unfold secondPass titleAmended
  rcases h3 with ⟨ho, ht⟩ | ⟨x, ho, htx, -⟩
  · rw [ht, ho]; rfl
  · rw [htx, ho]; rfl

/-! Machinery for claim C6: the histogram-key invariant. -/

theorem isHeadingCore_snd (h : Hist) (line : List Char) (fs : ℚ) (fn : String) :
    (isHeadingCore h line fs fn).2 =
      if line = [] ∨ line.length > 100 then h
      else if fs > 0 then bump h fs else h := by
  by_cases hg : line = [] ∨ line.length > 100
  · simp only [isHeadingCore, if_pos hg]
  · simp only [isHeadingCore, if_neg hg]
    simp [apply_ite (fun p : Bool × Hist => p.2), ite_self]

theorem oneDecimal_round1 (s : ℚ) : OneDecimal (round1 s) := ⟨round (s * 10), rfl⟩

theorem round1_nonneg (s : ℚ) (hs : 0 < s) : 0 ≤ round1 s := by
  unfold round1
  apply div_nonneg _ (by norm_num)
  have h1 : (0 : ℤ) ≤ round (s * 10) := by
    rw [round_eq]
    exact Int.le_floor.mpr (by push_cast; nlinarith)
  exact_mod_cast h1

theorem histKeys_bump_append (h : Hist) (k : ℚ) (hm : ¬ histMem h k = true) :
    histKeys (bump h k) = histKeys h ++ [k] := by
  unfold bump
  rw [if_neg hm]
  simp [histKeys]

theorem mem_histKeys_bump (h : Hist) (k j : ℚ) (hj : j ∈ histKeys (bump h k)) :
    j ∈ histKeys h ∨ j = k := by
  by_cases hm : histMem h k = true
  · rw [histKeys_bump_of_mem h k hm] at hj
    exact Or.inl hj
  · rw [histKeys_bump_append h k hm] at hj
    rcases List.mem_append.mp hj with h1 | h1
    · exact Or.inl h1
    · exact Or.inr (by simpa using h1)

theorem histOk_bump (h : Hist) (k : ℚ) (hh : HistOk h) (hk : KeyOk k) :
    HistOk (bump h k) := by
  intro j hj
  rcases mem_histKeys_bump h k j hj with hm | rfl
  · exact hh j hm
  · exact hk

theorem histOk_observePre (h : Hist) (c : PChar) (hh : HistOk h) :
    HistOk (observePre h c) := by
  unfold observePre
  by_cases hc : c.size > 0
  · rw [if_pos hc]
    exact histOk_bump h _ hh ⟨round1_nonneg c.size hc, oneDecimal_round1 c.size⟩
  · rw [if_neg hc]
    exact hh

theorem foldlInv {α β : Type} (P : β → Prop) (f : β → α → β)
    (hf : ∀ b a, P b → P (f b a)) :
    ∀ (l : List α) (b : β), P b → P (l.foldl f b) := by
  intro l
  induction l with
  | nil => exact fun b hb => hb
  | cons a as ih => exact fun b hb => ih (f b a) (hf b a hb)

theorem foldlInvMem {α β : Type} (P : β → Prop) (Q : α → Prop) (f : β → α → β)
    (hf : ∀ b a, Q a → P b → P (f b a)) :
    ∀ (l : List α) (b : β), (∀ a ∈ l, Q a) → P b → P (l.foldl f b) := by
  intro l
  induction l with
  | nil => exact fun b _ hb => hb
  | cons a as ih =>
    intro b hq hb
    rw [List.foldl_cons]
    exact ih (f b a) (fun x hx => hq x (List.mem_cons_of_mem a hx))
      (hf b a (hq a (List.mem_cons_self a as)) hb)

theorem histOk_prePass (doc : Document) : HistOk (prePass doc) := by
  unfold prePass
  apply foldlInv HistOk prePassPage
  · intro h p hh
    unfold prePassPage
    exact foldlInv HistOk observePre (fun b a hb => histOk_observePre b a hb) p h hh
  · intro k hk
    exact absurd hk (List.not_mem_nil k)

theorem assembleLines_size (i : ℕ) (p : Page) :
    ∀ kv ∈ assembleLines i p, OneDecimal kv.2.size := by
  unfold assembleLines
  have main : ∀ (l : Page) (acc : List (ℚ × LineEntry)),
      (∀ kv ∈ acc, OneDecimal kv.2.size) →
      ∀ kv ∈ l.foldl (addChar i) acc, OneDecimal kv.2.size := by
    intro l
    induction l with
    | nil => exact fun acc h => h
    | cons c cs ih =>
      intro acc hacc
      rw [List.foldl_cons]
      apply ih
      intro kv hkv
      simp only [addChar] at hkv
      by_cases hm : acc.any (fun q => decide (q.1 = round1 c.top)) = true
      · rw [if_pos hm] at hkv
        obtain ⟨kv0, hkv0, rfl⟩ := List.mem_map.mp hkv
        by_cases he : kv0.1 = round1 c.top
        · simpa [he] using hacc kv0 hkv0
        · simpa [he] using hacc kv0 hkv0
      · rw [if_neg hm] at hkv
        rcases List.mem_append.mp hkv with h1 | h1
        · exact hacc kv h1
        · rcases List.mem_singleton.mp h1 with rfl
          exact oneDecimal_round1 c.size
  exact main p [] (fun kv hkv => absurd hkv (List.not_mem_nil kv))

theorem pageEntries_size (i : ℕ) (p : Page) :
    ∀ e ∈ pageEntries i p, OneDecimal e.size := by
  intro e he
  obtain ⟨kv, hkv, rfl⟩ := List.mem_map.mp he
  exact assembleLines_size i p kv hkv

theorem docEntriesAux_size (doc : Document) :
    ∀ i : ℕ, ∀ e ∈ docEntriesAux i doc, OneDecimal e.size := by
  induction doc with
  | nil => exact fun i e he => absurd he (List.not_mem_nil e)
  | cons p ps ih =>
    intro i e he
    simp only [docEntriesAux] at he
    rcases List.mem_append.mp he with h1 | h1
    · exact pageEntries_size i p e h1
    · exact ih (i + 1) e h1

theorem histOk_isHeadingCore (h : Hist) (line : List Char) (fs : ℚ) (fn : String)
    (hh : HistOk h) (hfs : OneDecimal fs) :
    HistOk (isHeadingCore h line fs fn).2 := by
  rw [isHeadingCore_snd]
  by_cases hg : line = [] ∨ line.length > 100
  · rw [if_pos hg]
    exact hh
  · rw [if_neg hg]
    by_cases hp : fs > 0
    · rw [if_pos hp]
      exact histOk_bump h fs hh ⟨hp.le, hfs⟩
    · rw [if_neg hp]
      exact hh

theorem processEntry_fst (st : ExtState) (e : LineEntry) :
    (processEntry st e).1 =
      if stripL e.text = [] ∨ (stripL e.text).length > 100 then st.1
      else (isHeadingCore st.1 (stripL e.text) e.size e.font).2 := by
  by_cases hg : stripL e.text = [] ∨ (stripL e.text).length > 100
  · simp only [processEntry, if_pos hg]
  · simp only [processEntry, if_neg hg]
    by_cases hb : (isHeadingCore st.1 (stripL e.text) e.size e.font).1 = true
    · rw [if_pos hb]
    · rw [if_neg hb]

theorem histOk_processEntry (st : ExtState) (e : LineEntry)
    (hh : HistOk st.1) (he : OneDecimal e.size) :
    HistOk (processEntry st e).1 := by
  rw [processEntry_fst]
  by_cases hg : stripL e.text = [] ∨ (stripL e.text).length > 100
  · rw [if_pos hg]
    exact hh
  · rw [if_neg hg]
    exact histOk_isHeadingCore _ _ _ _ hh he

theorem histOk_extractHist (doc : Document) : HistOk (extractHist doc) := by
  unfold extractHist secondPass
  exact foldlInvMem (fun st : ExtState => HistOk st.1) (fun e => OneDecimal e.size)
    processEntry (fun st e hq hst => histOk_processEntry st e hst hq)
    (docEntries doc) (prePass doc, "Untitled".data, [])
    (fun e he => docEntriesAux_size doc 0 e he) (histOk_prePass doc)

/-- C6 as stated is false: the pre-pass guards `char["size"] > 0` on the
raw size and rounds afterwards, so a character of size 1/25 (= 0.04)
produces the histogram key 0.0, which is not > 0. -/
theorem c6_counterexample :
    histKeys (extractHist [[⟨"x", 1/25, "F", 0⟩]]) = [0] ∧ ¬ (0 : ℚ) > 0 :=
  ⟨by with_unfolding_all rfl, by norm_num⟩

/-- C6 (amended): a classification call with a non-positive font size
leaves the histogram unchanged without aborting classification of the
line, and every key of the histogram produced by an extraction run is
non-negative and an integer multiple of 0.1 (a key of exactly 0 can arise
from the pre-pass when the raw size lies in (0, 0.05)). -/
theorem c6_histogram_keys_amended :
    (∀ (h : Hist) (line : List Char) (s : ℚ) (fn : String), s ≤ 0 →
      (isHeadingCore h line s fn).2 = h) ∧
    (isHeadingCore [] "HELLO".data (-1) "F").1 = true ∧
    (∀ doc : Document, ∀ k ∈ histKeys (extractHist doc),
      0 ≤ k ∧ ∃ m : ℤ, k = (m : ℚ) / 10) := by
  refine ⟨?_, by with_unfolding_all rfl, ?_⟩
  · intro h line s fn hs
    rw [isHeadingCore_snd]
    by_cases hg : line = [] ∨ line.length > 100
    · rw [if_pos hg]
    · rw [if_neg hg, if_neg (not_lt.mpr hs)]
  · intro doc k hk
    exact histOk_extractHist doc k hk

/-- Witness for C6 (amended): the non-positive-size no-op and the key
invariant at concrete inputs. -/
theorem c6_witness :
    (isHeadingCore [((12 : ℚ), 1)] "Name".data (-3) "Bold").2 = [((12 : ℚ), 1)] ∧
    (0 ≤ (12 : ℚ) ∧ ∃ m : ℤ, (12 : ℚ) = (m : ℚ) / 10) := by
  constructor
  · exact c6_histogram_keys_amended.1 [((12 : ℚ), 1)] "Name".data (-3) "Bold"
      (by norm_num)
  · refine c6_histogram_keys_amended.2.2 [[⟨"A", 12, "F", 0⟩]] 12 ?_
    rw [show histKeys (extractHist [[⟨"A", 12, "F", 0⟩]]) = [12] from
      by with_unfolding_all rfl]
    exact List.mem_singleton.mpr rfl

end Extractor
